import Mathlib

/-!
Shallow embedding of the postgres-ai-agent repository: the frontend API layer
(frontend/src/lib/api.ts and the page component), the MessageBubble components,
and — modelled from the specification where the backend source (backend/agent.py,
backend/main.py) is not part of the source tree — the schema-aware tool invoker,
the reasoning loop, and the target (job) resolution chain.
-/

namespace PgAgent

/-- Message roles, from the `role: "user" | "assistant"` union in api.ts. -/
inductive Role
  | user
  | assistant
deriving DecidableEq, Repr

/-- A minimal JSON value universe, enough to model the JSON bodies the
frontend builds with JSON.stringify in api.ts. -/
inductive JsonVal
  | str : String → JsonVal
  | arr : List JsonVal → JsonVal
  | obj : List (String × JsonVal) → JsonVal
deriving Repr

/-- HistoryMessage from api.ts: `{role: "user" | "assistant", content: string}`. -/
structure HistoryMessage where
  role : Role
  content : String
deriving DecidableEq, Repr

/-- ToolCallInfo from api.ts: `{tool: string, args: Record, result: string}`. -/
structure ToolCallInfo where
  tool : String
  args : List (String × JsonVal)
  result : String
deriving Repr

/-- ChatResponseData from api.ts:
`{response: string, conversation_id: string, tool_calls: ToolCallInfo[]}`. -/
structure ChatResponseData where
  response : String
  conversation_id : String
  tool_calls : List ToolCallInfo
deriving Repr

/-- Wire string of a role, as serialized into the chat request history. -/
def roleString : Role → String
  | .user => "user"
  | .assistant => "assistant"

/-- JSON serialization of one history entry. -/
def historyMessageJson (m : HistoryMessage) : JsonVal :=
  .obj [("role", .str (roleString m.role)), ("content", .str m.content)]

/-- The JSON body built by `sendMessage` in frontend/src/lib/api.ts
(lines 90–100): JSON.stringify of
`\x7b message, database, db_type: dbType, conversation_id: conversationId, history \x7d`. -/
def sendMessageBody (message database dbType conversationId : String)
    (history : List HistoryMessage) : List (String × JsonVal) :=
  [("message", .str message),
   ("database", .str database),
   ("db_type", .str dbType),
   ("conversation_id", .str conversationId),
   ("history", .arr (history.map historyMessageJson))]

/-- The JSON body built by the older `sendMessage` copy in src/unnamed/part_000
(lines 38–47): JSON.stringify of
`\x7b message, database, conversation_id: conversationId, history \x7d` (no db_type). -/
def sendMessageBodyLegacy (message database conversationId : String)
    (history : List HistoryMessage) : List (String × JsonVal) :=
  [("message", .str message),
   ("database", .str database),
   ("conversation_id", .str conversationId),
   ("history", .arr (history.map historyMessageJson))]

/-- JSON serialization of one ToolCallInfo, per the ChatResponseData shape. -/
def toolCallInfoJson (tc : ToolCallInfo) : JsonVal :=
  .obj [("tool", .str tc.tool), ("args", .obj tc.args), ("result", .str tc.result)]

/-- JSON shape of the chat response consumed by sendMessage. -/
def chatResponseJson (r : ChatResponseData) : JsonVal :=
  .obj [("response", .str r.response),
        ("conversation_id", .str r.conversation_id),
        ("tool_calls", .arr (r.tool_calls.map toolCallInfoJson))]

/-- Keys of a JSON object value (in field order); empty for non-objects. -/
def objKeys : JsonVal → List String
  | .obj fields => fields.map Prod.fst
  | _ => []

/-- Outcome of `await res.json()` on a failed chat response in sendMessage:
either the body is unparseable (the promise rejects and the `.catch` handler
substitutes `\x7b detail: "Unknown error" \x7d`), or it parses and its `detail`
field is modelled as an optional string (absent, empty, or non-empty). -/
inductive FetchBody
  | unparseable
  | parsed (detail : Option String)
deriving Repr

/-- The `err` object after `res.json().catch(() => (\x7b detail: "Unknown error" \x7d))`
in sendMessage (api.ts line 102, part_000 line 49): parse failure is replaced by
a detail of "Unknown error". -/
def sendMessageErrDetail : FetchBody → Option String
  | .unparseable => some "Unknown error"
  | .parsed d => d

/-- JavaScript `a || b` on an optional string `a`: an absent or empty string is
falsy, so the fallback is used; a non-empty string is returned itself. -/
def jsOrElse (v : Option String) (fallback : String) : String :=
  match v with
  | some d => if d.isEmpty then fallback else d
  | none => fallback

/-- sendMessage after the fetch resolves (api.ts lines 101–106): on a non-ok
response it throws `new Error(err.detail || "Chat request failed")`, never
returning a value; on an ok response it returns the parsed data. -/
def sendMessageResult (ok : Bool) (body : FetchBody) (data : ChatResponseData) :
    Except String ChatResponseData :=
  if ok then .ok data
  else .error (jsOrElse (sendMessageErrDetail body) "Chat request failed")

/-- Resolution source, from the JobDetectionResult union in api.ts line 30:
`source: "config" | "prometheus" | "not_found"`. The specification calls the
middle value "live-query" (its §4.4 step 2 reads: source = `prometheus`-equivalent
"live-query"). -/
inductive JobSource
  | config
  | prometheus
  | notFound
deriving DecidableEq, Repr

/-- Wire string of a JobSource, per the api.ts union literals. -/
def jobSourceString : JobSource → String
  | .config => "config"
  | .prometheus => "prometheus"
  | .notFound => "not_found"

/-- JobDetectionResult from api.ts lines 26–31:
`\x7b database: string, job: string | null, instance: string | null, source \x7d`.
The `instance` field is renamed `instanceLabel` because `instance` is a Lean
keyword. -/
structure JobDetectionResult where
  database : String
  job : Option String
  instanceLabel : Option String
  source : JobSource
deriving DecidableEq, Repr

/-- DatabaseItem from api.ts lines 3–7: `\x7b name, label, job?: string | null \x7d`;
also the shape of one databases.yaml entry per the change log. -/
structure DatabaseItem where
  name : String
  label : String
  job : Option String
deriving DecidableEq, Repr

/-- One `pg_up` series match from the live Prometheus query, carrying the
`job` and `instance` labels, per the change-log walkthrough of
`detect_job_from_prometheus`. -/
structure PgUpMatch where
  job : String
  instanceLabel : String
deriving DecidableEq, Repr

/-- Modelled from the spec: the backend `GET /databases/\x7bname\x7d/job` resolution
chain in backend/main.py, which is not part of the source tree (only the change
log under src/changes and the api.ts caller are). Spec §4.4: (1) if the target
configuration carries a routing key, return it with source `config` and issue no
live query; (2) otherwise query `pg_up` and, on exactly one match, return its
job with source "live-query" (the code value "prometheus") and the matched
instance; (3) on zero or two-or-more matches return a null job with source
`not_found`. The returned Bool records whether the live query was issued. -/
def resolve (db : DatabaseItem) (liveMatches : List PgUpMatch) :
    JobDetectionResult × Bool :=
  match db.job with
  | some j => (⟨db.name, some j, none, .config⟩, false)
  | none =>
    match liveMatches with
    | [m] => (⟨db.name, some m.job, some m.instanceLabel, .prometheus⟩, true)
    | _ => (⟨db.name, none, none, .notFound⟩, true)

/-- ChatMessage from ChatWindow (src/unnamed/part_002 lines 7–12):
`\x7b id, role, content, toolCalls? \x7d`; an absent toolCalls array is modelled
as the empty list. -/
structure ChatMessage where
  id : String
  role : Role
  content : String
  toolCalls : List ToolCallInfo

/-- The page component state used by `handleSend` in the Home component
(the page source concatenated into src/frontend/src/app/error.tsx,
lines 49–55 of that component): database, messages, input, loading,
conversationId. -/
structure PageState where
  database : String
  messages : List ChatMessage
  input : String
  loading : Bool
  conversationId : String

/-- The chat request issued by this page version, which calls
`sendMessage(text, database, conversationId, history)` (four arguments,
matching the api.ts copy in src/unnamed/part_000). -/
structure ChatRequest where
  message : String
  database : String
  conversationId : String
  history : List HistoryMessage

/-- Warning bubble content appended by handleSend when no database is selected. -/
def noDbWarning : String :=
  "⚠️ Please select a database from the dropdown in the top-left corner before sending a message."

/-- JavaScript-trim whitespace set: space, tab, newline, carriage return,
vertical tab, form feed (the WhiteSpace and LineTerminator productions that
matter for the strings this frontend handles). -/
def isJsWhitespace (c : Char) : Bool :=
  c == ' ' || c == '\n' || c == '\t' || c == '\r' || c.toNat == 11 || c.toNat == 12

/-- JavaScript String.prototype.trim on a character list: drop whitespace from
both ends. -/
def trimChars (l : List Char) : List Char :=
  ((l.dropWhile isJsWhitespace).reverse.dropWhile isJsWhitespace).reverse

/-- String-level trim used by handleSend (`input.trim()`). -/
def jsTrim (s : String) : String := String.mk (trimChars s.data)

/-- handleSend from the Home page component (error.tsx lines 61–112 of the
concatenated file): trims the input; bails out on empty text or while loading;
with no database selected appends a warning assistant bubble and sends nothing;
otherwise appends the user message, clears the input, sets loading, and issues
a chat request whose history is `messages.map((m) => (\x7b role: m.role,
content: m.content \x7d))` computed from the pre-append message list. `uid` stands
for the uuidv4() assigned to the new bubble. -/
def handleSend (st : PageState) (uid : String) : PageState × Option ChatRequest :=
  let text := jsTrim st.input
  if text.isEmpty || st.loading then (st, none)
  else if st.database.isEmpty then
    ({ st with messages := st.messages ++ [⟨uid, .assistant, noDbWarning, []⟩] }, none)
  else
    let history := st.messages.map (fun m => HistoryMessage.mk m.role m.content)
    ({ st with
        messages := st.messages ++ [⟨uid, .user, text, []⟩],
        input := "",
        loading := true },
     some ⟨text, st.database, st.conversationId, history⟩)

/-- Error kinds of the spec §7 taxonomy that are surfaced to the model as
observations (ConnectionError is startup-fatal and LoopExhausted is the
terminal abort, so neither flows through the tool-invocation boundary). -/
inductive ToolErrorKind
  | providerUnavailable
  | invalidArguments
  | timeout
deriving DecidableEq, Repr

/-- Display name of a recoverable tool error kind, per spec §7. -/
def toolErrorKindName : ToolErrorKind → String
  | .providerUnavailable => "ProviderUnavailable"
  | .invalidArguments => "InvalidArguments"
  | .timeout => "Timeout"

/-- Outcome of one dispatched tool call: a result text, or a recoverable error. -/
inductive ToolOutcome
  | ok (result : String)
  | err (kind : ToolErrorKind) (msg : String)
deriving Repr

/-- A model-proposed tool call: tool name and raw argument mapping. -/
structure ToolCall where
  tool : String
  args : List (String × JsonVal)

/-- A raw argument value proposed by the model: either a mapping or some
non-mapping value. -/
inductive RawArgs
  | mapping (kvs : List (String × JsonVal))
  | notMapping
deriving Repr

/-- A tool's declared parameter description: the JSON-schema `properties`
names and the `required` names. -/
structure ToolSchema where
  properties : List String
  required : List String

/-- Rejection reasons of the schema-aware invoker. -/
inductive InvokeError
  | notAMapping
  | missingRequired (param : String)
deriving DecidableEq, Repr

/-- Modelled from the spec: `_invoke_tool` in backend/agent.py (not under
src/; only the change log describes it). Spec §4.2: every key in rawArgs is
forwarded as-is to the provider — no implicit dropping of keys not present in
the schema; the call is rejected up front only if rawArgs is not a mapping or
a schema-declared required parameter is absent, and that rejection is an
InvalidArguments-class error surfaced as an observation. -/
def invoke (schema : ToolSchema) (raw : RawArgs) :
    Except InvokeError (List (String × JsonVal)) :=
  match raw with
  | .notMapping => .error .notAMapping
  | .mapping kvs =>
    match schema.required.find? (fun r => ! kvs.any (fun kv => kv.fst == r)) with
    | some r => .error (.missingRequired r)
    | none => .ok kvs

/-- One model response inside the reasoning loop: either final
natural-language text (zero tool calls), or a batch of proposed invocations. -/
inductive ModelAction
  | finalText (t : String)
  | toolBatch (calls : List ToolCall)

/-- Terminal states of the reasoning loop state machine (spec §4.3):
Responding with the model's final text, or Aborted on iteration-limit
exhaustion. -/
inductive TermState
  | responding (text : String)
  | aborted (text : String)
deriving DecidableEq, Repr

/-- Natural-language text carried by a terminal state. -/
def termText : TermState → String
  | .responding t => t
  | .aborted t => t

/-- The explicit "unable to complete" text returned on LoopExhausted
(spec §4.3 loop bound and §7 user-visible failure behavior). -/
def loopExhaustedText : String :=
  "Unable to complete the request within the configured iteration limit; the answer so far may be partial."

/-- Observation fed back to the model for one tool outcome (spec §4.2/§7):
results verbatim, errors rendered as a model-visible ToolError observation. -/
def observationOf : ToolOutcome → String
  | .ok r => r
  | .err k m => "ToolError " ++ toolErrorKindName k ++ ": " ++ m

/-- Result of one reasoning-loop run: the terminal state, the iteration count
at termination, and the accumulated model-visible observations. -/
structure RunResult where
  state : TermState
  iterations : Nat
  observations : List String
deriving Repr

/-- Modelled from the spec: the reasoning loop of backend/agent.py (not under
src/). Spec §4.3: the loop asks the model for the next action (the `oracle`,
indexed by iteration); final text transitions to Responding; a tool batch is
dispatched (`tools` gives each call's outcome), every outcome is appended as
an observation, and the iteration counter increments; reaching the configured
bound without a final answer transitions to Aborted with the explicit
"unable to complete" text. `fuel` is the number of remaining iterations. -/
def loopAux (oracle : Nat → ModelAction) (tools : ToolCall → ToolOutcome) :
    Nat → Nat → List String → RunResult
  | 0, iter, obs => ⟨.aborted loopExhaustedText, iter, obs⟩
  | fuel + 1, iter, obs =>
    match oracle iter with
    | .finalText t => ⟨.responding t, iter, obs⟩
    | .toolBatch calls =>
      loopAux oracle tools fuel (iter + 1)
        (obs ++ calls.map (fun c => observationOf (tools c)))

/-- Run one chat request through the reasoning loop with the configured
iteration limit. -/
def runLoop (limit : Nat) (oracle : Nat → ModelAction)
    (tools : ToolCall → ToolOutcome) : RunResult :=
  loopAux oracle tools limit 0 []

/-- Character class `[a-z0-9_-]` of the sanitizeContent regexes under the `i`
flag (so upper-case letters match too). -/
def isNameChar (c : Char) : Bool :=
  (97 ≤ c.toNat && c.toNat ≤ 122) || (65 ≤ c.toNat && c.toNat ≤ 90) ||
  (48 ≤ c.toNat && c.toNat ≤ 57) || c == '_' || c == '-'

/-- Case-insensitive test whether `pat` is a leading segment of `l`
(JavaScript `i`-flag comparison via toLower). -/
def ciLeads : List Char → List Char → Bool
  | [], _ => true
  | _ :: _, [] => false
  | p :: ps, c :: cs => (p.toLower == c.toLower) && ciLeads ps cs

/-- Index of the first position of `l` where `pat` occurs case-insensitively
(the lazy search a JavaScript regex performs for the nearest later match). -/
def findSub (pat : List Char) : List Char → Option Nat
  | [] => if ciLeads pat [] then some 0 else none
  | c :: cs =>
    if ciLeads pat (c :: cs) then some 0
    else (findSub pat cs).map (fun n => n + 1)

/-- The closing-tag text `</NAME>` the first sanitizeContent regex searches
for via its backreference. -/
def closeTag (tagName : List Char) : List Char :=
  '<' :: '/' :: (tagName ++ ['>'])

/-- Backtracking over the greedy capture `([a-z0-9_-]\x7b3,\x7d)` of the first
sanitizeContent regex: try the capture lengths `d + 3` down to `3` (longest
first, as a greedy group backtracks), and for each look for the nearest
closing tag in `body` (the lazy `[\s\S]*?`). Returns the successful capture
length and the body offset of the closing tag. -/
def tryClose (run body : List Char) : Nat → Option (Nat × Nat)
  | 0 => (findSub (closeTag (run.take 3)) body).map (fun j => (3, j))
  | d + 1 =>
    match findSub (closeTag (run.take (d + 4))) body with
    | some j => some (d + 4, j)
    | none => tryClose run body d

/-- Length of the match of the first sanitizeContent regex
`<([a-z0-9_-]\x7b3,\x7d)[^>]*>[\s\S]*?<\/\1>` (gi) at the head of `l`, or none.
The open tag needs a `<`, at least three name characters (the greedy capture
takes the maximal run), then runs to the first later `>`; the lazy body then
ends at the nearest case-insensitive `</capture>`, with the capture backtracked
from longest to length three. -/
def matchPaired : List Char → Option Nat
  | [] => none
  | c :: rest =>
    if c == '<' then
      let run := rest.takeWhile isNameChar
      if 3 ≤ run.length then
        match (rest.drop run.length).findIdx? (fun d => d == '>') with
        | some i =>
          match tryClose run ((rest.drop run.length).drop (i + 1)) (run.length - 3) with
          | some (L, j) => some (1 + run.length + (i + 1) + j + (L + 3))
          | none => none
        | none => none
      else none
    else none

/-- Length of the match of the second sanitizeContent regex
`<\/?[a-z0-9_-]\x7b3,\x7d[^>]*>` (gi) at the head of `l`, or none: a `<`, an
optional `/`, at least three name characters, then everything up to and
including the first later `>`. -/
def matchLone : List Char → Option Nat
  | [] => none
  | c :: rest =>
    if c == '<' then
      match rest with
      | [] => none
      | c2 :: rest2 =>
        let (base, tail) := if c2 == '/' then (2, rest2) else (1, rest)
        let run := tail.takeWhile isNameChar
        if 3 ≤ run.length then
          match (tail.drop run.length).findIdx? (fun d => d == '>') with
          | some i => some (base + run.length + i + 1)
          | none => none
        else none
    else none

/-- Fueled scanner for the global replacement of the first sanitizeContent
regex: leftmost match wins, each match is deleted, scanning resumes after it.
Every step consumes at least one character, so fuel equal to the input length
always suffices; the fuel only makes the recursion structural. -/
def stripPairedGo : Nat → List Char → List Char
  | _, [] => []
  | 0, l => l
  | fuel + 1, c :: cs =>
    match matchPaired (c :: cs) with
    | some n => stripPairedGo fuel (cs.drop (n - 1))
    | none => c :: stripPairedGo fuel cs

/-- Global replacement of every match of the first sanitizeContent regex with
the empty string. -/
def stripPaired (l : List Char) : List Char := stripPairedGo l.length l

/-- Fueled scanner for the global replacement of the second sanitizeContent
regex. -/
def stripLoneGo : Nat → List Char → List Char
  | _, [] => []
  | 0, l => l
  | fuel + 1, c :: cs =>
    match matchLone (c :: cs) with
    | some n => stripLoneGo fuel (cs.drop (n - 1))
    | none => c :: stripLoneGo fuel cs

/-- Global replacement of every match of the second sanitizeContent regex with
the empty string. -/
def stripLone (l : List Char) : List Char := stripLoneGo l.length l

/-- Fueled scanner for the global replacement of `/\n\x7b3,\x7d/g` by two
newlines: any maximal run of three or more newlines collapses to exactly two. -/
def collapseNewlinesGo : Nat → List Char → List Char
  | _, [] => []
  | 0, l => l
  | fuel + 1, c :: cs =>
    if c == '\n' then
      if 2 ≤ (cs.takeWhile (fun d => d == '\n')).length then
        '\n' :: '\n' :: collapseNewlinesGo fuel (cs.drop (cs.takeWhile (fun d => d == '\n')).length)
      else
        c :: collapseNewlinesGo fuel cs
    else c :: collapseNewlinesGo fuel cs

/-- Collapse every run of three or more newlines to exactly two. -/
def collapseNewlines (l : List Char) : List Char := collapseNewlinesGo l.length l

/-- sanitizeContent from src/unnamed/part_003 lines 15–27: empty input is
returned as the empty string; otherwise strip every paired XML block, then
every remaining lone tag, collapse runs of three or more newlines to two, and
trim. -/
def sanitizeContent (text : List Char) : List Char :=
  if text.isEmpty then []
  else trimChars (collapseNewlines (stripLone (stripPaired text)))

/-- The string the MessageBubble copy in src/unnamed/part_003 hands to its
renderer (line 39): assistant content goes through sanitizeContent before
ReactMarkdown; user content reaches the plain paragraph unchanged. -/
def displayContentUnnamed (role : Role) (content : List Char) : List Char :=
  match role with
  | .assistant => sanitizeContent content
  | .user => content

/-- The string the MessageBubble copy in
src/frontend/src/components/MessageBubble.tsx hands to its renderer: the raw
content, for both the assistant ReactMarkdown branch and the user paragraph. -/
def displayContentTsx (role : Role) (content : List Char) : List Char :=
  match role with
  | .assistant => content
  | .user => content

/-! Theorems. -/

/-- C3: resolve follows the ordered fallback chain — a static routing key is
returned with source `config` and no live query is issued; with no static key,
exactly one live match is returned with the live-query source (the code value
`prometheus`) and the matched instance; zero or two-or-more matches yield a
null routing key with source `not_found`. -/
theorem c3_resolve_fallback_chain (db : DatabaseItem) (ms : List PgUpMatch) :
    (∀ j, db.job = some j →
      resolve db ms = (⟨db.name, some j, none, .config⟩, false)) ∧
    (∀ m, db.job = none → ms = [m] →
      resolve db ms = (⟨db.name, some m.job, some m.instanceLabel, .prometheus⟩, true)) ∧
    (db.job = none → ms.length ≠ 1 →
      resolve db ms = (⟨db.name, none, none, .notFound⟩, true)) := by
  refine ⟨fun j hj => ?_, fun m hn hm => ?_, fun hn hlen => ?_⟩
  · simp [resolve, hj]
  · simp [resolve, hn, hm]
  · cases hms : ms with
    | nil => simp [resolve, hn, hms]
    | cons a t =>
      cases t with
      | nil => exact absurd (by simp [hms]) hlen
      | cons b t2 => simp [resolve, hn, hms]

/-- Witness for C3 at a concrete target with a static routing key. -/
theorem c3_witness :
    resolve ⟨"prod-db-01", "Production DB 01", some "postgres"⟩ [] =
      (⟨"prod-db-01", some "postgres", none, .config⟩, false) :=
  (c3_resolve_fallback_chain ⟨"prod-db-01", "Production DB 01", some "postgres"⟩ []).1
    "postgres" rfl

/-- C4: every result of resolve is a JobDetectionResult record carrying the
target name, an optional routing key, an optional instance label, and a source
that is one of exactly the three values config, prometheus (the spec's
"live-query"), and not_found. -/
theorem c4_resolution_result_shape (db : DatabaseItem) (ms : List PgUpMatch) :
    ((resolve db ms).1.database = db.name) ∧
    ((resolve db ms).1.source = .config ∨ (resolve db ms).1.source = .prometheus ∨
      (resolve db ms).1.source = .notFound) ∧
    (∀ s : JobSource, jobSourceString s = "config" ∨ jobSourceString s = "prometheus" ∨
      jobSourceString s = "not_found") := by
  refine ⟨?_, ?_, fun s => ?_⟩
  · cases hj : db.job with
    | none =>
      cases ms with
      | nil => simp [resolve, hj]
      | cons a t => cases t <;> simp [resolve, hj]
    | some j => simp [resolve, hj]
  · cases hj : db.job with
    | none =>
      cases ms with
      | nil => simp [resolve, hj]
      | cons a t => cases t <;> simp [resolve, hj]
    | some j => simp [resolve, hj]
  · cases s <;> simp [jobSourceString]

/-- C5 counterexample: the chat request body built by sendMessage in
frontend/src/lib/api.ts does not carry exactly the four claimed fields — it
also carries db_type. -/
theorem c5_counterexample :
    (sendMessageBody "m" "db" "master" "c1" []).map Prod.fst ≠
      ["message", "database", "conversation_id", "history"] := by decide

/-- C5 amended: the request body carries exactly message, database, db_type,
conversation_id and history — each value the caller's argument verbatim, the
history serialized in order — and the response carries exactly response text,
conversation_id and the ordered tool-call list of tool/args/result records. -/
theorem c5_chat_contract_shape (message database dbType conversationId : String)
    (history : List HistoryMessage) (r : ChatResponseData) :
    (sendMessageBody message database dbType conversationId history).map Prod.fst =
      ["message", "database", "db_type", "conversation_id", "history"] ∧
    (sendMessageBody message database dbType conversationId history).lookup "message" =
      some (.str message) ∧
    (sendMessageBody message database dbType conversationId history).lookup "database" =
      some (.str database) ∧
    (sendMessageBody message database dbType conversationId history).lookup "db_type" =
      some (.str dbType) ∧
    (sendMessageBody message database dbType conversationId history).lookup "conversation_id" =
      some (.str conversationId) ∧
    (sendMessageBody message database dbType conversationId history).lookup "history" =
      some (.arr (history.map historyMessageJson)) ∧
    objKeys (chatResponseJson r) = ["response", "conversation_id", "tool_calls"] ∧
    (∀ tc : ToolCallInfo, objKeys (toolCallInfoJson tc) = ["tool", "args", "result"]) := by
  refine ⟨rfl, ?_, ?_, ?_, ?_, ?_, rfl, fun tc => rfl⟩ <;>
    simp [sendMessageBody, List.lookup]

/-- C10: when the chat HTTP response is not ok, sendMessage never returns a
value; the thrown message is the parsed body's non-empty detail, or
"Unknown error" when the body does not parse, or "Chat request failed" when
the parsed body has no truthy detail (absent or empty). -/
theorem c10_send_message_failure (d : String) (body : FetchBody)
    (data : ChatResponseData) :
    (∀ r, sendMessageResult false body data ≠ .ok r) ∧
    (d ≠ "" → sendMessageResult false (.parsed (some d)) data = .error d) ∧
    (sendMessageResult false .unparseable data = .error "Unknown error") ∧
    (sendMessageResult false (.parsed none) data = .error "Chat request failed") ∧
    (sendMessageResult false (.parsed (some "")) data = .error "Chat request failed") := by
  refine ⟨fun r h => ?_, fun hd => ?_, rfl, rfl, rfl⟩
  · simp [sendMessageResult] at h
  · simp [sendMessageResult, sendMessageErrDetail, jsOrElse, String.isEmpty_iff, hd]

/-- Witness for C10 at a concrete failed response with a non-empty detail. -/
theorem c10_witness :
    sendMessageResult false (.parsed (some "boom")) ⟨"", "", []⟩ = .error "boom" :=
  (c10_send_message_failure "boom" .unparseable ⟨"", "", []⟩).2.1 (by decide)

/-- C1: the invoker forwards the model-proposed mapping verbatim — whenever it
forwards at all, the forwarded list is exactly the raw mapping, so no key is
dropped; it forwards whenever every schema-required parameter is present; and
it rejects only a non-mapping or a mapping missing some required parameter. -/
theorem c1_invoke_forwards_verbatim (schema : ToolSchema) (raw : RawArgs) :
    (∀ kvs, raw = .mapping kvs →
      (∀ r ∈ schema.required, ∃ kv ∈ kvs, kv.fst = r) →
      invoke schema raw = .ok kvs) ∧
    (∀ kvs out, raw = .mapping kvs → invoke schema raw = .ok out → out = kvs) ∧
    (∀ e, invoke schema raw = .error e →
      raw = .notMapping ∨
      ∃ kvs r, raw = .mapping kvs ∧ r ∈ schema.required ∧ ∀ kv ∈ kvs, kv.fst ≠ r) := by
  refine ⟨fun kvs hraw hreq => ?_, fun kvs out hraw hok => ?_, fun e herr => ?_⟩
  · subst hraw
    have hnone : schema.required.find? (fun r => ! kvs.any (fun kv => kv.fst == r)) = none := by
      rw [List.find?_eq_none]
      intro r hr
      obtain ⟨kv, hkv, heq⟩ := hreq r hr
      have hany : kvs.any (fun kv => kv.fst == r) = true :=
        List.any_eq_true.mpr ⟨kv, hkv, by simp [heq]⟩
      simp [hany]
    simp [invoke, hnone]
  · subst hraw
    simp only [invoke] at hok
    rcases hfind : schema.required.find? (fun r => ! kvs.any (fun kv => kv.fst == r)) with
      _ | r
    · rw [hfind] at hok
      injection hok with h
      exact h.symm
    · rw [hfind] at hok
      exact absurd hok (by simp)
  · cases raw with
    | notMapping => exact Or.inl rfl
    | mapping kvs =>
      right
      simp only [invoke] at herr
      rcases hfind : schema.required.find? (fun r => ! kvs.any (fun kv => kv.fst == r)) with
        _ | r
      · rw [hfind] at herr
        exact absurd herr (by simp)
      · refine ⟨kvs, r, rfl, List.mem_of_find?_eq_some hfind, ?_⟩
        have hp := List.find?_some hfind
        simp only [Bool.not_eq_true', List.any_eq_false] at hp
        intro kv hkv
        simpa using hp kv hkv

/-- Witness for C1 at a concrete schema and mapping carrying an extra key not
declared in the schema, which is still forwarded. -/
theorem c1_witness :
    invoke ⟨["query", "start"], ["query"]⟩
      (.mapping [("query", .str "up"), ("extra_key", .str "kept")]) =
      .ok [("query", .str "up"), ("extra_key", .str "kept")] :=
  (c1_invoke_forwards_verbatim ⟨["query", "start"], ["query"]⟩
      (.mapping [("query", .str "up"), ("extra_key", .str "kept")])).1
    [("query", .str "up"), ("extra_key", .str "kept")] rfl
    (by
      intro r hr
      simp only [List.mem_singleton] at hr
      exact ⟨("query", .str "up"), by simp [hr]⟩)

/-- Iteration count of the fueled loop is bounded by the starting count plus
the remaining fuel. -/
theorem loopAux_iterations_le (oracle : Nat → ModelAction) (tools : ToolCall → ToolOutcome) :
    ∀ fuel iter obs, (loopAux oracle tools fuel iter obs).iterations ≤ iter + fuel := by
  intro fuel
  induction fuel with
  | zero => intro iter obs; simp [loopAux]
  | succ n ih =>
    intro iter obs
    cases h : oracle iter with
    | finalText t => simp [loopAux, h]
    | toolBatch calls =>
      simp only [loopAux, h]
      have := ih (iter + 1) (obs ++ calls.map (fun c => observationOf (tools c)))
      omega

/-- A run whose model never produces final text within the remaining fuel ends
in the Aborted state with the loop-exhausted text. -/
theorem loopAux_aborted_of_no_final (oracle : Nat → ModelAction) (tools : ToolCall → ToolOutcome) :
    ∀ fuel iter obs, (∀ k, k < fuel → ∀ t, oracle (iter + k) ≠ .finalText t) →
      (loopAux oracle tools fuel iter obs).state = .aborted loopExhaustedText := by
  intro fuel
  induction fuel with
  | zero => intro iter obs _; rfl
  | succ n ih =>
    intro iter obs hno
    cases h : oracle iter with
    | finalText t =>
      exact absurd h (by simpa using hno 0 (Nat.succ_pos n) t)
    | toolBatch calls =>
      simp only [loopAux, h]
      refine ih (iter + 1) _ fun k hk t => ?_
      have := hno (k + 1) (by omega) t
      simpa [Nat.add_assoc, Nat.add_comm 1 k] using this

/-- C2: for every chat request the iteration count at termination is at most
the configured loop limit, and a run in which the model never emits a final
answer within the limit terminates in the Aborted state with non-empty
response text. -/
theorem c2_loop_bound (limit : Nat) (oracle : Nat → ModelAction)
    (tools : ToolCall → ToolOutcome) :
    (runLoop limit oracle tools).iterations ≤ limit ∧
    ((∀ i, i < limit → ∀ t, oracle i ≠ .finalText t) →
      (runLoop limit oracle tools).state = .aborted loopExhaustedText ∧
      termText (runLoop limit oracle tools).state ≠ "") := by
  constructor
  · simpa using loopAux_iterations_le oracle tools limit 0 []
  · intro hno
    have hab := loopAux_aborted_of_no_final oracle tools limit 0 []
      (fun k hk t => by simpa using hno k hk t)
    refine ⟨hab, ?_⟩
    rw [show (runLoop limit oracle tools).state = .aborted loopExhaustedText from hab]
    decide

/-- Witness for C2 at limit 2 with a model that always proposes tool batches. -/
theorem c2_witness :
    (runLoop 2 (fun _ => .toolBatch []) (fun _ => .ok "r")).iterations ≤ 2 ∧
    ((runLoop 2 (fun _ => .toolBatch []) (fun _ => .ok "r")).state =
      .aborted loopExhaustedText ∧
      termText (runLoop 2 (fun _ => .toolBatch []) (fun _ => .ok "r")).state ≠ "") :=
  have h := c2_loop_bound 2 (fun _ => .toolBatch []) (fun _ => .ok "r")
  ⟨h.1, h.2 (fun _ _ _ heq => ModelAction.noConfusion heq)⟩

/-- Terminal text of the fueled loop is non-empty whenever every final text
the model can emit is non-empty; in particular the loop-exhausted text is. -/
theorem loopAux_text_nonempty (oracle : Nat → ModelAction) (tools : ToolCall → ToolOutcome)
    (hor : ∀ i t, oracle i = .finalText t → t ≠ "") :
    ∀ fuel iter obs, termText (loopAux oracle tools fuel iter obs).state ≠ "" := by
  intro fuel
  induction fuel with
  | zero => intro iter obs; simp [loopAux, termText, loopExhaustedText]
  | succ n ih =>
    intro iter obs
    cases h : oracle iter with
    | finalText t => simpa [loopAux, h, termText] using hor iter t h
    | toolBatch calls => simpa [loopAux, h] using ih (iter + 1) _

/-- Observations already accumulated are preserved by the rest of the run. -/
theorem loopAux_obs_mono (oracle : Nat → ModelAction) (tools : ToolCall → ToolOutcome) :
    ∀ fuel iter obs x, x ∈ obs → x ∈ (loopAux oracle tools fuel iter obs).observations := by
  intro fuel
  induction fuel with
  | zero => intro iter obs x hx; simpa [loopAux] using hx
  | succ n ih =>
    intro iter obs x hx
    cases h : oracle iter with
    | finalText t => simpa [loopAux, h] using hx
    | toolBatch calls =>
      simp only [loopAux, h]
      exact ih (iter + 1) _ x (List.mem_append_left _ hx)

/-- C7: tool errors are caught at the invocation boundary — each recoverable
error kind renders as a non-empty model-visible observation, a dispatched
call's observation is accumulated into the run rather than failing the
request, and the chat response text is non-empty whenever the model's final
texts are, including on loop exhaustion. -/
theorem c7_errors_become_observations (limit : Nat) (oracle : Nat → ModelAction)
    (tools : ToolCall → ToolOutcome) :
    ((∀ i t, oracle i = .finalText t → t ≠ "") →
      termText (runLoop limit oracle tools).state ≠ "") ∧
    (∀ k m, observationOf (.err k m) ≠ "") ∧
    (∀ calls c, oracle 0 = .toolBatch calls → c ∈ calls → 1 ≤ limit →
      observationOf (tools c) ∈ (runLoop limit oracle tools).observations) := by
  refine ⟨fun hor => loopAux_text_nonempty oracle tools hor limit 0 [], ?_, ?_⟩
  · intro k m
    cases k <;>
      simp [observationOf, toolErrorKindName, String.ext_iff, String.data_append]
  · intro calls c h0 hc hlim
    obtain ⟨n, rfl⟩ := Nat.exists_eq_add_of_le hlim
    simp only [runLoop, Nat.add_comm 1 n, loopAux, h0]
    exact loopAux_obs_mono oracle tools n 1 _ _
      (List.mem_append_right _ (List.mem_map_of_mem _ hc))

/-- Witness for C7: a model that immediately answers after one batch whose
only call times out; the timeout observation is recorded and the response text
is non-empty. -/
theorem c7_witness :
    ((∀ i t, (fun j => if j = 0 then ModelAction.toolBatch [⟨"query", []⟩]
        else ModelAction.finalText "partial answer") i = .finalText t → t ≠ "") →
      termText (runLoop 3 (fun j => if j = 0 then ModelAction.toolBatch [⟨"query", []⟩]
        else ModelAction.finalText "partial answer")
        (fun _ => .err .timeout "deadline exceeded")).state ≠ "") ∧
    (∀ k m, observationOf (.err k m) ≠ "") ∧
    (∀ calls c, (fun j => if j = 0 then ModelAction.toolBatch [⟨"query", []⟩]
        else ModelAction.finalText "partial answer") 0 = .toolBatch calls → c ∈ calls →
        1 ≤ 3 →
      observationOf ((fun _ => ToolOutcome.err .timeout "deadline exceeded") c) ∈
        (runLoop 3 (fun j => if j = 0 then ModelAction.toolBatch [⟨"query", []⟩]
          else ModelAction.finalText "partial answer")
          (fun _ => .err .timeout "deadline exceeded")).observations) :=
  c7_errors_become_observations 3 _ _

/-- C6: whenever handleSend issues a chat request, the request's history is
exactly the previously displayed transcript — every prior bubble's role and
text in display order — computed before the new user message is appended. -/
theorem c6_history_is_full_prior_transcript (st : PageState) (uid : String)
    (st2 : PageState) (req : ChatRequest)
    (h : handleSend st uid = (st2, some req)) :
    req.history = st.messages.map (fun m => HistoryMessage.mk m.role m.content) ∧
    req.history.length = st.messages.length ∧
    st2.messages = st.messages ++ [⟨uid, .user, req.message, []⟩] := by
  simp only [handleSend] at h
  split at h
  · exact absurd (congrArg Prod.snd h) (by simp)
  · split at h
    · exact absurd (congrArg Prod.snd h) (by simp)
    · rw [Prod.mk.injEq, Option.some.injEq] at h
      obtain ⟨h1, h2⟩ := h
      subst h1
      subst h2
      exact ⟨rfl, by simp, rfl⟩

/-- Witness for C6 at a concrete page state with one prior exchange. -/
theorem c6_witness :
    (ChatRequest.mk "next q" "db1" "conv"
        [⟨.user, "hi"⟩, ⟨.assistant, "hello"⟩]).history =
      ([⟨"id0", .user, "hi", []⟩, ⟨"id1", .assistant, "hello", []⟩] :
          List ChatMessage).map (fun m => HistoryMessage.mk m.role m.content) ∧
    (ChatRequest.mk "next q" "db1" "conv"
        [⟨.user, "hi"⟩, ⟨.assistant, "hello"⟩]).history.length =
      ([⟨"id0", .user, "hi", []⟩, ⟨"id1", .assistant, "hello", []⟩] :
          List ChatMessage).length ∧
    (PageState.mk "db1"
        ([⟨"id0", .user, "hi", []⟩, ⟨"id1", .assistant, "hello", []⟩,
          ⟨"u2", .user, "next q", []⟩]) "" true "conv").messages =
      ([⟨"id0", .user, "hi", []⟩, ⟨"id1", .assistant, "hello", []⟩] :
          List ChatMessage) ++
        [⟨"u2", .user,
          (ChatRequest.mk "next q" "db1" "conv"
            [⟨.user, "hi"⟩, ⟨.assistant, "hello"⟩]).message, []⟩] :=
  c6_history_is_full_prior_transcript
    ⟨"db1", [⟨"id0", .user, "hi", []⟩, ⟨"id1", .assistant, "hello", []⟩],
      "next q", false, "conv"⟩
    "u2"
    ⟨"db1", [⟨"id0", .user, "hi", []⟩, ⟨"id1", .assistant, "hello", []⟩,
      ⟨"u2", .user, "next q", []⟩], "", true, "conv"⟩
    ⟨"next q", "db1", "conv", [⟨.user, "hi"⟩, ⟨.assistant, "hello"⟩]⟩
    rfl

/-- C8 counterexample: at role assistant and content "<abcd>", the
MessageBubble copy in src/unnamed/part_003 hands the empty string to the
Markdown renderer while the copy in MessageBubble.tsx hands "<abcd>", so the
two implementations are not equivalent. -/
theorem c8_counterexample :
    displayContentUnnamed .assistant "<abcd>".data ≠
      displayContentTsx .assistant "<abcd>".data := by decide

/-- C8 amended: the two MessageBubble copies agree on every user message, and
on an assistant message they agree exactly when sanitizeContent leaves the
content unchanged. -/
theorem c8_bubbles_agree_iff_sanitize_fixes (content : List Char) :
    displayContentUnnamed .user content = displayContentTsx .user content ∧
    (displayContentUnnamed .assistant content = displayContentTsx .assistant content ↔
      sanitizeContent content = content) := by
  exact ⟨rfl, Iff.rfl⟩

/-- Whether three consecutive newlines occur anywhere in the list — the
pattern the third sanitizeContent regex removes. -/
def hasTripleNl : List Char → Bool
  | a :: b :: c :: rest => (a == '\n' && b == '\n' && c == '\n') || hasTripleNl (b :: c :: rest)
  | _ => false

/-- A triple of consecutive newlines is exactly an infix occurrence of
three newline characters. -/
theorem hasTripleNl_iff (l : List Char) :
    hasTripleNl l = true ↔ ∃ l1 l2, l = l1 ++ '\n' :: '\n' :: '\n' :: l2 := by
  induction l with
  | nil =>
    simp only [hasTripleNl]
    constructor
    · intro h; exact absurd h (by simp)
    · rintro ⟨l1, l2, h⟩
      have := congrArg List.length h
      simp at this
      omega
  | cons a t ih =>
    cases t with
    | nil =>
      simp only [hasTripleNl]
      constructor
      · intro h; exact absurd h (by simp)
      · rintro ⟨l1, l2, h⟩
        have := congrArg List.length h
        simp at this
        omega
    | cons b t2 =>
      cases t2 with
      | nil =>
        simp only [hasTripleNl]
        constructor
        · intro h; exact absurd h (by simp)
        · rintro ⟨l1, l2, h⟩
          have := congrArg List.length h
          simp at this
          omega
      | cons c r =>
        simp only [hasTripleNl, Bool.or_eq_true, Bool.and_eq_true, beq_iff_eq]
        constructor
        · rintro (⟨⟨ha, hb⟩, hc⟩ | h)
          · exact ⟨[], r, by simp [ha, hb, hc]⟩
          · obtain ⟨l1, l2, heq⟩ := ih.mp h
            exact ⟨a :: l1, l2, by simp [heq]⟩
        · rintro ⟨l1, l2, heq⟩
          cases l1 with
          | nil =>
            simp only [List.nil_append, List.cons.injEq] at heq
            exact Or.inl ⟨⟨heq.1, heq.2.1⟩, heq.2.2.1⟩
          | cons x l1' =>
            simp only [List.cons_append, List.cons.injEq] at heq
            exact Or.inr (ih.mpr ⟨l1', l2, heq.2⟩)

/-- Triple-freedom is closed under dropping the head. -/
theorem hasTripleNl_tail {c : Char} {cs : List Char}
    (h : hasTripleNl (c :: cs) = false) : hasTripleNl cs = false := by
  cases cs with
  | nil => rfl
  | cons b t =>
    cases t with
    | nil => rfl
    | cons d r =>
      simp only [hasTripleNl, Bool.or_eq_false_iff] at h
      exact h.2

/-- Triple-freedom is closed under dropWhile. -/
theorem hasTripleNl_dropWhile (p : Char → Bool) :
    ∀ l : List Char, hasTripleNl l = false → hasTripleNl (l.dropWhile p) = false := by
  intro l
  induction l with
  | nil => intro h; exact h
  | cons c cs ih =>
    intro h
    rw [List.dropWhile_cons]
    split
    · exact ih (hasTripleNl_tail h)
    · exact h

/-- Triple-freedom is closed under reversal. -/
theorem hasTripleNl_reverse {l : List Char} (h : hasTripleNl l = false) :
    hasTripleNl l.reverse = false := by
  rw [Bool.eq_false_iff]
  intro htr
  obtain ⟨l1, l2, heq⟩ := (hasTripleNl_iff l.reverse).mp htr
  have : l = l2.reverse ++ '\n' :: '\n' :: '\n' :: l1.reverse := by
    have := congrArg List.reverse heq
    simpa [List.reverse_append] using this
  exact absurd ((hasTripleNl_iff l).mpr ⟨l2.reverse, l1.reverse, this⟩)
    (by rw [h]; simp)

/-- dropWhile is idempotent. -/
theorem dropWhile_idem (p : Char → Bool) :
    ∀ l : List Char, (l.dropWhile p).dropWhile p = l.dropWhile p := by
  intro l
  induction l with
  | nil => rfl
  | cons c cs ih =>
    rw [List.dropWhile_cons]
    split
    · exact ih
    · rw [List.dropWhile_cons, if_neg (by assumption)]

/-- The head of a dropWhile result fails the predicate. -/
theorem head?_dropWhile (p : Char → Bool) :
    ∀ l : List Char, ∀ a, (l.dropWhile p).head? = some a → p a = false := by
  intro l
  induction l with
  | nil => intro a h; exact absurd h (by simp)
  | cons c cs ih =>
    intro a h
    rw [List.dropWhile_cons] at h
    split at h
    · exact ih a h
    · simp only [List.head?_cons, Option.some.injEq] at h
      subst h
      simp_all

/-- A list whose head fails the predicate is fixed by dropWhile. -/
theorem dropWhile_eq_self_of_head (p : Char → Bool) (l : List Char)
    (h : ∀ a, l.head? = some a → p a = false) : l.dropWhile p = l := by
  cases l with
  | nil => rfl
  | cons c cs => rw [List.dropWhile_cons, if_neg (by simp [h c rfl])]

/-- A non-empty dropWhile result keeps the last element of its input. -/
theorem getLast?_dropWhile (p : Char → Bool) (l : List Char) (a : Char)
    (h : (l.dropWhile p).getLast? = some a) : l.getLast? = some a := by
  rcases hd : l.dropWhile p with _ | ⟨x, xs⟩
  · rw [hd] at h; exact absurd h (by simp)
  · rw [← List.takeWhile_append_dropWhile p l, hd,
      List.getLast?_append_of_ne_nil _ (by simp)]
    rw [hd] at h
    exact h

/-- trimChars is idempotent. -/
theorem trimChars_idem (l : List Char) : trimChars (trimChars l) = trimChars l := by
  have step1 : (trimChars l).dropWhile isJsWhitespace = trimChars l := by
    refine dropWhile_eq_self_of_head _ _ fun a ha => ?_
    rw [trimChars, List.head?_reverse] at ha
    have h2 := getLast?_dropWhile isJsWhitespace _ a ha
    rw [List.getLast?_reverse] at h2
    exact head?_dropWhile isJsWhitespace _ a h2
  rw [trimChars, step1]
  rw [trimChars, List.reverse_reverse, dropWhile_idem, ← trimChars]

/-- Dropping as many elements as takeWhile keeps is dropWhile. -/
theorem drop_length_takeWhile (p : Char → Bool) :
    ∀ l : List Char, l.drop (l.takeWhile p).length = l.dropWhile p := by
  intro l
  induction l with
  | nil => rfl
  | cons c cs ih =>
    rw [List.takeWhile_cons, List.dropWhile_cons]
    split
    · simpa using ih
    · rfl

/-- An empty takeWhile means the head (if any) fails the predicate. -/
theorem head_fails_of_takeWhile_len_zero (p : Char → Bool) (cs : List Char)
    (h : (cs.takeWhile p).length = 0) :
    ∀ a, cs.head? = some a → p a = false := by
  intro a ha
  cases cs with
  | nil => exact absurd ha (by simp)
  | cons b t =>
    rw [List.takeWhile_cons] at h
    simp only [List.head?_cons, Option.some.injEq] at ha
    subst ha
    split at h
    · simp at h
    · simp_all

/-- A takeWhile of length one: the head passes and the next takeWhile is
empty. -/
theorem takeWhile_len_one (p : Char → Bool) (cs : List Char)
    (h : (cs.takeWhile p).length = 1) :
    ∃ b t, cs = b :: t ∧ p b = true ∧ (t.takeWhile p).length = 0 := by
  cases cs with
  | nil => simp at h
  | cons b t =>
    rw [List.takeWhile_cons] at h
    split at h
    · exact ⟨b, t, rfl, by assumption, by simpa using h⟩
    · simp at h

/-- A takeWhile of length at least two starts with two passing elements. -/
theorem takeWhile_len_two (p : Char → Bool) (cs : List Char)
    (h : 2 ≤ (cs.takeWhile p).length) :
    ∃ b d t, cs = b :: d :: t ∧ p b = true ∧ p d = true := by
  cases cs with
  | nil => simp at h
  | cons b t =>
    rw [List.takeWhile_cons] at h
    split at h
    · cases t with
      | nil => simp at h
      | cons d t2 =>
        rw [List.takeWhile_cons] at h
        split at h
        · exact ⟨b, d, t2, rfl, by assumption, by assumption⟩
        · simp at h
    · simp at h

/-- Prepending a non-newline preserves triple-freedom. -/
theorem noTriple_cons_ne {c : Char} (hc : c ≠ '\n') {Y : List Char}
    (hY : hasTripleNl Y = false) : hasTripleNl (c :: Y) = false := by
  cases Y with
  | nil => rfl
  | cons b Y2 =>
    cases Y2 with
    | nil => rfl
    | cons d r =>
      have hcb : (c == '\n') = false := by simp [hc]
      simp [hasTripleNl, hcb, hY]

/-- Prepending one newline to a triple-free list not starting with a newline
preserves triple-freedom. -/
theorem noTriple_cons_one {Y : List Char} (hY : hasTripleNl Y = false)
    (hh : ∀ a, Y.head? = some a → a ≠ '\n') : hasTripleNl ('\n' :: Y) = false := by
  cases Y with
  | nil => rfl
  | cons b Y2 =>
    have hb : (b == '\n') = false := by simp [hh b rfl]
    cases Y2 with
    | nil => rfl
    | cons d r => simp [hasTripleNl, hb, hY]

/-- Prepending two newlines to a triple-free list not starting with a newline
preserves triple-freedom. -/
theorem noTriple_cons_two {Y : List Char} (hY : hasTripleNl Y = false)
    (hh : ∀ a, Y.head? = some a → a ≠ '\n') :
    hasTripleNl ('\n' :: '\n' :: Y) = false := by
  cases Y with
  | nil => rfl
  | cons b Y2 =>
    have hb : (b == '\n') = false := by simp [hh b rfl]
    have h1 : hasTripleNl ('\n' :: b :: Y2) = false := noTriple_cons_one hY hh
    simp [hasTripleNl, hb, h1]

/-- The collapse scanner sends the empty list to itself, whatever the fuel. -/
theorem collapseNewlinesGo_nil (fuel : Nat) : collapseNewlinesGo fuel [] = [] := by
  cases fuel <;> rfl

/-- The collapse scanner preserves the head character. -/
theorem collapseNewlinesGo_head? :
    ∀ fuel l, (collapseNewlinesGo fuel l).head? = l.head? := by
  intro fuel l
  match fuel, l with
  | f, [] => rw [collapseNewlinesGo_nil]
  | 0, _ :: _ => rfl
  | n + 1, c :: cs =>
    simp only [collapseNewlinesGo]
    by_cases hc : (c == '\n') = true
    · rw [if_pos hc]
      have hceq : c = '\n' := by simpa using hc
      split <;> simp [hceq]
    · rw [if_neg hc]
      rfl

/-- The output of the collapse scanner never contains three consecutive
newlines. -/
theorem collapseNewlinesGo_no_triple :
    ∀ fuel l, l.length ≤ fuel → hasTripleNl (collapseNewlinesGo fuel l) = false := by
  intro fuel
  induction fuel using Nat.strong_induction_on with
  | _ fuel ih =>
    intro l hlen
    match fuel, l with
    | f, [] => rw [collapseNewlinesGo_nil]; rfl
    | 0, c :: cs => simp at hlen
    | n + 1, c :: cs =>
      have hlcs : cs.length ≤ n := by simpa using hlen
      have hn : n < n + 1 := Nat.lt_succ_self n
      simp only [collapseNewlinesGo]
      by_cases hc : (c == '\n') = true
      · rw [if_pos hc]
        have hceq : c = '\n' := by simpa using hc
        by_cases h2 : 2 ≤ (cs.takeWhile (fun d => d == '\n')).length
        · rw [if_pos h2]
          refine noTriple_cons_two (ih n hn _ (le_trans (by simp) hlcs)) ?_
          intro a ha
          rw [collapseNewlinesGo_head?, drop_length_takeWhile] at ha
          have := head?_dropWhile (fun d => d == '\n') cs a ha
          simpa using this
        · rw [if_neg h2]
          have h01 : (cs.takeWhile (fun d => d == '\n')).length = 0 ∨
              (cs.takeWhile (fun d => d == '\n')).length = 1 := by omega
          rcases h01 with h0 | h1
          · rw [hceq]
            refine noTriple_cons_one (ih n hn cs hlcs) ?_
            intro a ha
            rw [collapseNewlinesGo_head?] at ha
            have := head_fails_of_takeWhile_len_zero _ cs h0 a ha
            simpa using this
          · obtain ⟨b, t, hcs, hb, ht0⟩ := takeWhile_len_one _ cs h1
            have hbeq : b = '\n' := by simpa using hb
            subst hcs
            have htn : t.length + 1 ≤ n := by simpa using hlcs
            have hm : ∃ m, n = m + 1 := ⟨n - 1, by omega⟩
            obtain ⟨m, rfl⟩ := hm
            have htlen : t.length ≤ m := by omega
            rw [hceq, hbeq]
            simp only [collapseNewlinesGo, if_pos (by rfl : (('\n' : Char) == '\n') = true),
              if_neg (by omega : ¬ 2 ≤ (t.takeWhile (fun d => d == '\n')).length)]
            refine noTriple_cons_two (ih m (by omega) t htlen) ?_
            intro a ha
            rw [collapseNewlinesGo_head?] at ha
            have := head_fails_of_takeWhile_len_zero _ t ht0 a ha
            simpa using this
      · rw [if_neg hc]
        exact noTriple_cons_ne (by simpa using hc) (ih n hn cs hlcs)

/-- The collapse scanner fixes every triple-free list. -/
theorem collapseNewlinesGo_id :
    ∀ fuel l, hasTripleNl l = false → collapseNewlinesGo fuel l = l := by
  intro fuel
  induction fuel with
  | zero =>
    intro l _
    match l with
    | [] => rfl
    | c :: cs => rfl
  | succ n ih =>
    intro l hfree
    match l with
    | [] => rfl
    | c :: cs =>
      simp only [collapseNewlinesGo]
      by_cases hc : (c == '\n') = true
      · rw [if_pos hc]
        by_cases h2 : 2 ≤ (cs.takeWhile (fun d => d == '\n')).length
        · obtain ⟨b, d, t, hcs, hb, hd⟩ := takeWhile_len_two _ cs h2
          subst hcs
          simp [hasTripleNl, hc, hb, hd] at hfree
        · rw [if_neg h2, ih cs (hasTripleNl_tail hfree)]
      · rw [if_neg hc, ih cs (hasTripleNl_tail hfree)]

/-- Every character of the collapse scanner's output occurs in its input. -/
theorem collapseNewlinesGo_subset :
    ∀ fuel l a, a ∈ collapseNewlinesGo fuel l → a ∈ l := by
  intro fuel
  induction fuel with
  | zero =>
    intro l a ha
    match l with
    | [] => exact ha
    | c :: cs => exact ha
  | succ n ih =>
    intro l a ha
    match l with
    | [] => exact ha
    | c :: cs =>
      simp only [collapseNewlinesGo] at ha
      by_cases hc : (c == '\n') = true
      · rw [if_pos hc] at ha
        have hceq : c = '\n' := by simpa using hc
        split at ha
        · rcases List.mem_cons.mp ha with h1 | ha2
          · exact h1 ▸ hceq ▸ List.mem_cons_self _ _
          · rcases List.mem_cons.mp ha2 with h1 | ha3
            · exact h1 ▸ hceq ▸ List.mem_cons_self _ _
            · exact List.mem_cons_of_mem _ (List.drop_subset _ _ (ih _ a ha3))
        · rcases List.mem_cons.mp ha with h1 | ha2
          · exact h1 ▸ List.mem_cons_self _ _
          · exact List.mem_cons_of_mem _ (ih _ a ha2)
      · rw [if_neg hc] at ha
        rcases List.mem_cons.mp ha with h1 | ha2
        · exact h1 ▸ List.mem_cons_self _ _
        · exact List.mem_cons_of_mem _ (ih _ a ha2)

/-- The first regex cannot match at a head other than the open angle
bracket. -/
theorem matchPaired_none {c : Char} (cs : List Char) (hc : c ≠ '<') :
    matchPaired (c :: cs) = none := by
  rw [matchPaired, if_neg (by simp [hc])]

/-- The second regex cannot match at a head other than the open angle
bracket. -/
theorem matchLone_none {c : Char} (cs : List Char) (hc : c ≠ '<') :
    matchLone (c :: cs) = none := by
  rw [matchLone.eq_def]
  simp [hc]

/-- Stripping paired blocks fixes any list without an open angle bracket. -/
theorem stripPairedGo_id :
    ∀ fuel l, '<' ∉ l → stripPairedGo fuel l = l := by
  intro fuel
  induction fuel with
  | zero =>
    intro l _
    match l with
    | [] => rfl
    | c :: cs => rfl
  | succ n ih =>
    intro l hl
    match l with
    | [] => rfl
    | c :: cs =>
      have hc : c ≠ '<' := fun h => hl (h ▸ List.mem_cons_self _ _)
      rw [stripPairedGo, matchPaired_none cs hc,
        ih cs (fun h => hl (List.mem_cons_of_mem _ h))]

/-- Stripping lone tags fixes any list without an open angle bracket. -/
theorem stripLoneGo_id :
    ∀ fuel l, '<' ∉ l → stripLoneGo fuel l = l := by
  intro fuel
  induction fuel with
  | zero =>
    intro l _
    match l with
    | [] => rfl
    | c :: cs => rfl
  | succ n ih =>
    intro l hl
    match l with
    | [] => rfl
    | c :: cs =>
      have hc : c ≠ '<' := fun h => hl (h ▸ List.mem_cons_self _ _)
      rw [stripLoneGo, matchLone_none cs hc,
        ih cs (fun h => hl (List.mem_cons_of_mem _ h))]

/-- dropWhile only removes elements. -/
theorem dropWhile_sub (p : Char → Bool) (l : List Char) : l.dropWhile p ⊆ l := by
  intro a ha
  rw [← List.takeWhile_append_dropWhile p l]
  exact List.mem_append_right _ ha

/-- trimChars only removes elements. -/
theorem trimChars_sub (l : List Char) : trimChars l ⊆ l := by
  intro a ha
  rw [trimChars, List.mem_reverse] at ha
  have h2 := dropWhile_sub isJsWhitespace _ ha
  rw [List.mem_reverse] at h2
  exact dropWhile_sub isJsWhitespace l h2

/-- The output of trimChars on a triple-free list is triple-free. -/
theorem hasTripleNl_trimChars {l : List Char} (h : hasTripleNl l = false) :
    hasTripleNl (trimChars l) = false := by
  rw [trimChars]
  exact hasTripleNl_reverse
    (hasTripleNl_dropWhile _ _ (hasTripleNl_reverse (hasTripleNl_dropWhile _ _ h)))

/-- On an input without an open angle bracket, sanitizeContent is just
collapse-then-trim. -/
theorem sanitizeContent_no_lt {l : List Char} (hl : '<' ∉ l) :
    sanitizeContent l = trimChars (collapseNewlines l) := by
  cases l with
  | nil => rfl
  | cons c cs =>
    rw [sanitizeContent, if_neg (by simp), stripPaired, stripPairedGo_id _ _ hl,
      stripLone, stripLoneGo_id _ _ hl]

/-- C9 counterexample: sanitizeContent is not idempotent — stripping the lone
tag inside "<<abc>def>" manufactures the new lone tag "<def>", which a second
pass removes. -/
theorem c9_counterexample :
    sanitizeContent (sanitizeContent ('<' :: '<' :: 'a' :: 'b' :: 'c' :: '>' ::
      'd' :: 'e' :: 'f' :: '>' :: [])) ≠
    sanitizeContent ('<' :: '<' :: 'a' :: 'b' :: 'c' :: '>' ::
      'd' :: 'e' :: 'f' :: '>' :: []) := by decide

/-- C9 amended: sanitizeContent is idempotent on every input that contains no
open angle bracket (on such inputs only the newline collapse and the trim
act, and their composite is idempotent). -/
theorem c9_sanitize_idem_no_lt (l : List Char) (hl : '<' ∉ l) :
    sanitizeContent (sanitizeContent l) = sanitizeContent l := by
  rw [sanitizeContent_no_lt hl]
  have hmem_m : '<' ∉ collapseNewlines l := fun h =>
    hl (collapseNewlinesGo_subset _ _ _ h)
  have hmem_y : '<' ∉ trimChars (collapseNewlines l) := fun h =>
    hmem_m (trimChars_sub _ h)
  have hfree_m : hasTripleNl (collapseNewlines l) = false :=
    collapseNewlinesGo_no_triple _ _ le_rfl
  have hfree_y : hasTripleNl (trimChars (collapseNewlines l)) = false :=
    hasTripleNl_trimChars hfree_m
  rw [sanitizeContent_no_lt hmem_y]
  rw [show collapseNewlines (trimChars (collapseNewlines l)) =
      trimChars (collapseNewlines l) from collapseNewlinesGo_id _ _ hfree_y]
  exact trimChars_idem _

/-- Witness for the amended C9 at a concrete bracket-free input. -/
theorem c9_witness :
    sanitizeContent (sanitizeContent ('h' :: 'i' :: '\n' :: '\n' :: '\n' :: ' ' :: [])) =
      sanitizeContent ('h' :: 'i' :: '\n' :: '\n' :: '\n' :: ' ' :: []) :=
  c9_sanitize_idem_no_lt ('h' :: 'i' :: '\n' :: '\n' :: '\n' :: ' ' :: []) (by decide)

end PgAgent
